import Mathlib

/-!
Shallow embedding of the AppRadio channel-tree engine (src/src/radio.ts).

Mutable TS objects become pure values:
  * `TChannelNode` becomes `Node` (children as an insertion-ordered
    association list, matching JS `Map` iteration/update order).
  * Listener functions are identified by a numeric id (`Nat`); JS reference
    identity (`includes` / `indexOf`) becomes id equality.  The closures
    created by `listenOnce` are recorded in a wrapper table so that invoking
    the wrapper id replays the closure body (call inner handler, then
    unsubscribe itself).
  * `setTimeout(f, 0)` becomes appending a `Task` to a FIFO queue; running
    the queue models the event-loop turn after the synchronous code returns.
  * A handler invocation is recorded in `log` as the pair
    (user handler id, delivered payload).
  * The dynamic `TMessage | string` argument of `broadcast` / `stream`
    becomes `MsgOrVal`; a bare non-string value makes the code evaluate
    `undefined.toLowerCase()` and throw, modelled as `none`.
-/

/-- Payload values; the TS payload is `any`, the claims only need strings and
numbers, plus the string / non-string distinction that `typeof` makes. -/
inductive Value where
  | str (s : String)
  | nat (n : Nat)
deriving DecidableEq, Repr

/-- `TMessage`: a channel path and a payload. -/
structure Msg where
  channel : String
  payload : Value
deriving DecidableEq, Repr

/-- `TChannelNode`: children map (insertion-ordered association list),
cached streamed message (`currentInfo`), listener ids in registration
order. -/
inductive Node where
  | mk : List (String × Node) → Option Msg → List Nat → Node

def Node.children : Node → List (String × Node)
  | .mk c _ _ => c

def Node.currentInfo : Node → Option Msg
  | .mk _ i _ => i

def Node.listeners : Node → List Nat
  | .mk _ _ l => l

/-- A freshly created channel node: empty children, no cached message, no
listeners (the object literal built inside `_traverseChannelTree`). -/
def emptyNode : Node := .mk [] none []

/-- `Map.get`: first binding for the key, if any. -/
def alistFind (l : List (String × Node)) (k : String) : Option Node :=
  match l with
  | [] => none
  | (k2, v) :: rest => if k2 = k then some v else alistFind rest k

/-- `Map.set`: replace the value of an existing key in place, otherwise
append the new binding (JS `Map` keeps insertion order). -/
def alistSet (l : List (String × Node)) (k : String) (v : Node) :
    List (String × Node) :=
  match l with
  | [] => [(k, v)]
  | (k2, v2) :: rest =>
      if k2 = k then (k2, v) :: rest else (k2, v2) :: alistSet rest k v

/-- Split a character list on `/`, JS-`split` style: the result always has
one segment more than there are separators, so `""` gives `[[]]` and
`"a//b"` gives three segments with an empty one in the middle. -/
def splitSlash : List Char → List (List Char)
  | [] => [[]]
  | c :: rest =>
      match splitSlash rest with
      | [] => [[c]]
      | seg :: segs => if c = '/' then [] :: seg :: segs else (c :: seg) :: segs

/-- Path tokenisation of `_traverseChannelTree`: lower-case
(`toLowerCase`, ASCII letters), split on `/`, and drop the leading empty
token produced by a leading slash (`channels.shift()`), implemented over
the character list so that it evaluates by kernel reduction. -/
def tokenize (p : String) : List String :=
  let cs := p.data.map Char.toLower
  let parts := (splitSlash cs).map (fun l => String.mk l)
  match cs with
  | '/' :: _ => parts.tail
  | _ => parts

/-- The node `_traverseChannelTree` returns for a token list: walk the
children, treating a missing child as a fresh empty node; an empty token
(or exhausted list) stops the walk at the current node. -/
def getNode : Node → List String → Node
  | n, [] => n
  | n, t :: ts =>
      if t = "" then n
      else getNode ((alistFind n.children t).getD emptyNode) ts

/-- The whole-tree effect of `_traverseChannelTree` followed by a mutation
of the returned node: create the missing nodes along the token walk and
apply `f` to the node where the walk stops. -/
def withNode (n : Node) (ts : List String) (f : Node → Node) : Node :=
  match ts with
  | [] => f n
  | t :: rest =>
      if t = "" then f n
      else
        Node.mk
          (alistSet n.children t
            (withNode ((alistFind n.children t).getD emptyNode) rest f))
          n.currentInfo n.listeners

mutual

/-- `_spreadOnSubtree` specialised to the only action the code uses:
`node => { node.currentInfo = null }` on the node and every descendant. -/
def spreadClear : Node → Node
  | .mk cs _ ls => .mk (spreadClearList cs) none ls

def spreadClearList : List (String × Node) → List (String × Node)
  | [] => []
  | (k, c) :: rest => (k, spreadClear c) :: spreadClearList rest

end

/-- A `listenOnce` wrapper closure: its own function identity `wid`, the
captured `handler` id, and the captured (already tokenised) channel path. -/
structure Wrapper where
  wid : Nat
  inner : Nat
  path : List String
deriving DecidableEq, Repr

def findWrapper (ws : List Wrapper) (hid : Nat) : Option Wrapper :=
  match ws with
  | [] => none
  | w :: rest => if w.wid = hid then some w else findWrapper rest hid

/-- A deferred `setTimeout` callback.
  * `deliver hid v`: `() => l(message.payload)` from `broadcast` / `stream`
    (listener id and payload captured at scheduling time).
  * `replay path hid`: the cached-message check scheduled by `subscribe`;
    it reads `node.currentInfo` when it runs, so it carries the path of the
    captured node and dereferences it at execution time. -/
inductive RTask where
  | deliver (hid : Nat) (v : Value)
  | replay (path : List String) (hid : Nat)
deriving DecidableEq, Repr

/-- The whole engine state: the tree root, the table of live `listenOnce`
wrapper closures, a counter for fresh closure identities, the pending
timer queue, and the record of user-handler invocations. -/
structure RadioState where
  root : Node
  kinds : List Wrapper
  nextId : Nat
  tasks : List RTask
  log : List (Nat × Value)

def freshState (k : Nat) : RadioState :=
  { root := emptyNode, kinds := [], nextId := k, tasks := [], log := [] }

/-- `new AppRadio()`. -/
def initState : RadioState := freshState 0

/-- `if (!listeners.includes(handler)) listeners.push(handler)`. -/
def addListener (h : Nat) (n : Node) : Node :=
  if h ∈ n.listeners then n
  else .mk n.children n.currentInfo (n.listeners ++ [h])

/-- `indexOf` + `splice(i, 1)`: remove the first occurrence, if any. -/
def removeFirst (l : List Nat) (h : Nat) : List Nat :=
  match l with
  | [] => []
  | x :: rest => if x = h then rest else x :: removeFirst rest h

def setInfo (m : Msg) (n : Node) : Node :=
  .mk n.children (some m) n.listeners

/-- Token-level `subscribe`: resolve (creating), push the handler unless
present, schedule the deferred cached-replay check. -/
def subscribeT (s : RadioState) (ts : List String) (h : Nat) : RadioState :=
  { s with
    root := withNode s.root ts (addListener h)
    tasks := s.tasks ++ [RTask.replay ts h] }

def subscribe (s : RadioState) (p : String) (h : Nat) : RadioState :=
  subscribeT s (tokenize p) h

/-- Token-level `unsubscribe`: resolve (creating), splice out the first
occurrence of the handler. -/
def unsubscribeT (s : RadioState) (ts : List String) (h : Nat) : RadioState :=
  { s with
    root := withNode s.root ts (fun n =>
      .mk n.children n.currentInfo (removeFirst n.listeners h)) }

def unsubscribe (s : RadioState) (p : String) (h : Nat) : RadioState :=
  unsubscribeT s (tokenize p) h

/-- `broadcast` after argument normalisation: resolve the channel node
(creating), schedule one deferred delivery per currently registered
listener; the cache is not touched. -/
def broadcastMsg (s : RadioState) (m : Msg) : RadioState :=
  let ts := tokenize m.channel
  { s with
    root := withNode s.root ts (fun n => n)
    tasks := s.tasks ++
      (getNode s.root ts).listeners.map (fun h => RTask.deliver h m.payload) }

/-- `stream` after argument normalisation: like `broadcast` but the node's
`currentInfo` is set to the message before the deliveries are scheduled. -/
def streamMsg (s : RadioState) (m : Msg) : RadioState :=
  let ts := tokenize m.channel
  { s with
    root := withNode s.root ts (setInfo m)
    tasks := s.tasks ++
      (getNode s.root ts).listeners.map (fun h => RTask.deliver h m.payload) }

/-- The dynamic `TMessage | string` argument. -/
inductive MsgOrVal where
  | msg (m : Msg)
  | val (v : Value)
deriving DecidableEq, Repr

/-- `typeof message === 'string'` normalisation: a bare string becomes
`{channel: '/', payload: s}`; a bare non-string value falls through the
check, so `message.channel` is `undefined` and `.toLowerCase()` throws
(`none`). -/
def normalizeArg : MsgOrVal → Option Msg
  | .msg m => some m
  | .val (.str s) => some { channel := "/", payload := .str s }
  | .val (.nat _) => none

def broadcast (s : RadioState) (a : MsgOrVal) : Option RadioState :=
  (normalizeArg a).map (broadcastMsg s)

def stream (s : RadioState) (a : MsgOrVal) : Option RadioState :=
  (normalizeArg a).map (streamMsg s)

/-- `isStreaming`: resolve the node (the creating traversal!) and report
whether `currentInfo` is non-null; returns the answer and the possibly
grown state. -/
def isStreaming (s : RadioState) (p : String) : Bool × RadioState :=
  ((getNode s.root (tokenize p)).currentInfo.isSome,
   { s with root := withNode s.root (tokenize p) (fun n => n) })

/-- `silence`: resolve the node (creating), clear `currentInfo` on it and
every descendant.  The TS default argument makes `silence()` mean
`silence "/"`. -/
def silence (s : RadioState) (p : String) : RadioState :=
  { s with root := withNode s.root (tokenize p) spreadClear }

/-- `listenOnce`: allocate a fresh wrapper closure identity, record the
captured handler and path, and `subscribe` the wrapper. -/
def listenOnce (s : RadioState) (p : String) (h : Nat) : RadioState :=
  let ts := tokenize p
  let w := s.nextId
  subscribeT
    { s with
      nextId := w + 1
      kinds := s.kinds ++ [⟨w, h, ts⟩] } ts w

/-- Invoke a listener function by id.  A wrapper id runs the `listenOnce`
closure body: call the inner handler with the payload, then unsubscribe
itself; any other id is a user handler and its call is recorded in the
log.  The fuel bounds the wrapper-chain depth; engine-built chains are
strictly shorter than `kinds.length + 1`, the fuel every call site uses. -/
def invoke : Nat → RadioState → Nat → Value → RadioState
  | 0, s, _, _ => s
  | fuel + 1, s, hid, v =>
      match findWrapper s.kinds hid with
      | some w => unsubscribeT (invoke fuel s w.inner v) w.path hid
      | none => { s with log := s.log ++ [(hid, v)] }

/-- Run one expired timer callback. -/
def runTask (s : RadioState) : RTask → RadioState
  | .deliver hid v => invoke (s.kinds.length + 1) s hid v
  | .replay ts hid =>
      match (getNode s.root ts).currentInfo with
      | some m => invoke (s.kinds.length + 1) s hid m.payload
      | none => s

def runQueue (s : RadioState) : List RTask → RadioState
  | [] => s
  | t :: rest => runQueue (runTask s t) rest

/-- Drain the timer queue in FIFO order (none of the callbacks the engine
schedules everschedules a further timer, so one pass empties it). -/
def runAll (s : RadioState) : RadioState :=
  runQueue { s with tasks := [] } s.tasks

/-- Effective tokens: the prefix of the token list the walk actually
consumes before an empty token stops it. -/
def eff (ts : List String) : List String := ts.takeWhile (fun t => t ≠ "")

/-- Cache of the node a token list denotes (missing nodes read as fresh). -/
def infoAt (n : Node) (q : List String) : Option Msg := (getNode n q).currentInfo

/-- Listener list of the node a token list denotes. -/
def lisAt (n : Node) (q : List String) : List Nat := (getNode n q).listeners

/-! ## Basic lemmas about the tree primitives -/

theorem alistFind_set (l : List (String × Node)) (k k2 : String) (v : Node) :
    alistFind (alistSet l k v) k2 = if k2 = k then some v else alistFind l k2 := by
  induction l with
  | nil =>
      simp only [alistSet, alistFind]
      by_cases hk : k2 = k
      · simp [hk]
      · rw [if_neg (fun h : k = k2 => hk h.symm), if_neg hk]
  | cons kv rest ih =>
      obtain ⟨k3, v3⟩ := kv
      by_cases h3 : k3 = k
      · subst h3
        simp only [alistSet, if_pos rfl, alistFind]
        by_cases h2 : k3 = k2
        · simp [h2]
        · rw [if_neg h2, if_neg (fun h : k2 = k3 => h2 h.symm)]
          simp [alistFind, h2]
      · simp only [alistSet, if_neg h3, alistFind]
        by_cases h4 : k3 = k2
        · subst h4
          rw [if_pos rfl, if_neg (fun h : k3 = k => h3 h), if_pos rfl]
        · rw [if_neg h4, if_neg h4, ih]

theorem getNode_emptyNode (ts : List String) : getNode emptyNode ts = emptyNode := by
  induction ts with
  | nil => rfl
  | cons t rest ih =>
      by_cases ht : t = ""
      · simp [getNode, ht]
      · simpa [getNode, ht, emptyNode, alistFind, Node.children] using ih

theorem getNode_withNode_self (ts : List String) (n : Node) (f : Node → Node) :
    getNode (withNode n ts f) ts = f (getNode n ts) := by
  induction ts generalizing n with
  | nil => rfl
  | cons t rest ih =>
      by_cases ht : t = ""
      · subst ht; simp [withNode, getNode]
      · simp only [withNode, getNode, if_neg ht, Node.children, alistFind_set, if_pos rfl,
          Option.getD_some]
        exact ih _

/-- If two nodes agree on children and cache, they denote the same cache at
every token list. -/
theorem infoAt_congr (m1 m2 : Node) (hc : m1.children = m2.children)
    (hi : m1.currentInfo = m2.currentInfo) (q : List String) :
    infoAt m1 q = infoAt m2 q := by
  cases q with
  | nil => exact hi
  | cons u r =>
      by_cases hu : u = ""
      · simp [infoAt, getNode, hu, hi]
      · simp [infoAt, getNode, hu, hc]

/-- If two nodes agree on children and listeners, they denote the same
listener list at every token list. -/
theorem lisAt_congr (m1 m2 : Node) (hc : m1.children = m2.children)
    (hl : m1.listeners = m2.listeners) (q : List String) :
    lisAt m1 q = lisAt m2 q := by
  cases q with
  | nil => exact hl
  | cons u r =>
      by_cases hu : u = ""
      · simp [lisAt, getNode, hu, hl]
      · simp [lisAt, getNode, hu, hc]

/-- Applying a cache-preserving action at the end of a creating walk
preserves the cache read at every token list. -/
theorem infoAt_withNode (f : Node → Node)
    (hf : ∀ m q, infoAt (f m) q = infoAt m q) (ts : List String) (n : Node)
    (q : List String) : infoAt (withNode n ts f) q = infoAt n q := by
  induction ts generalizing n q with
  | nil => exact hf n q
  | cons t rest ih =>
      by_cases ht : t = ""
      · simpa [withNode, ht] using hf n q
      · simp only [withNode, if_neg ht]
        cases q with
        | nil => simp [infoAt, getNode, Node.currentInfo]
        | cons u r =>
            by_cases hu : u = ""
            · simp [infoAt, getNode, hu, Node.currentInfo]
            · simp only [infoAt, getNode, if_neg hu, Node.children, alistFind_set]
              by_cases hut : u = t
              · subst hut
                simp only [if_pos rfl, Option.getD_some]
                exact ih _ _
              · simp [hut]

/-- Applying a listener-preserving action at the end of a creating walk
preserves the listener list read at every token list. -/
theorem lisAt_withNode (f : Node → Node)
    (hf : ∀ m q, lisAt (f m) q = lisAt m q) (ts : List String) (n : Node)
    (q : List String) : lisAt (withNode n ts f) q = lisAt n q := by
  induction ts generalizing n q with
  | nil => exact hf n q
  | cons t rest ih =>
      by_cases ht : t = ""
      · simpa [withNode, ht] using hf n q
      · simp only [withNode, if_neg ht]
        cases q with
        | nil => simp [lisAt, getNode, Node.listeners]
        | cons u r =>
            by_cases hu : u = ""
            · simp [lisAt, getNode, hu, Node.listeners]
            · simp only [lisAt, getNode, if_neg hu, Node.children, alistFind_set]
              by_cases hut : u = t
              · subst hut
                simp only [if_pos rfl, Option.getD_some]
                exact ih _ _
              · simp [hut]

theorem infoAt_id_local (m : Node) (q : List String) :
    infoAt ((fun n => n) m) q = infoAt m q := rfl

theorem infoAt_addListener (h : Nat) (m : Node) (q : List String) :
    infoAt (addListener h m) q = infoAt m q := by
  unfold addListener
  by_cases hm : h ∈ m.listeners
  · simp [hm]
  · simp only [if_neg hm]
    exact infoAt_congr
      (Node.mk m.children m.currentInfo (m.listeners ++ [h])) m rfl rfl q

theorem lisAt_setInfo (msg : Msg) (m : Node) (q : List String) :
    lisAt (setInfo msg m) q = lisAt m q :=
  lisAt_congr (setInfo msg m) m rfl rfl q

theorem alistFind_spreadClearList (cs : List (String × Node)) (k : String) :
    alistFind (spreadClearList cs) k = (alistFind cs k).map spreadClear := by
  induction cs with
  | nil => rfl
  | cons kv rest ih =>
      obtain ⟨k3, c⟩ := kv
      by_cases h3 : k3 = k
      · simp [spreadClearList, alistFind, h3]
      · simp [spreadClearList, alistFind, h3, ih]

theorem infoAt_spreadClear (q : List String) (n : Node) :
    infoAt (spreadClear n) q = none := by
  induction q generalizing n with
  | nil => cases n; rfl
  | cons u r ih =>
      cases n with
      | mk cs info ls =>
          by_cases hu : u = ""
          · simp [infoAt, getNode, hu, spreadClear, Node.currentInfo]
          · simp only [infoAt, getNode, if_neg hu, spreadClear, Node.children,
              alistFind_spreadClearList]
            cases hfind : alistFind cs u with
            | none =>
                show Node.currentInfo (getNode emptyNode r) = none
                rw [getNode_emptyNode]
                rfl
            | some c => simpa [infoAt] using ih c

theorem lisAt_spreadClear (q : List String) (n : Node) :
    lisAt (spreadClear n) q = lisAt n q := by
  induction q generalizing n with
  | nil => cases n; rfl
  | cons u r ih =>
      cases n with
      | mk cs info ls =>
          by_cases hu : u = ""
          · simp [lisAt, getNode, hu, spreadClear, Node.listeners]
          · simp only [lisAt, getNode, if_neg hu, spreadClear, Node.children,
              alistFind_spreadClearList]
            cases hfind : alistFind cs u with
            | none => simp
            | some c => simpa [lisAt] using ih c

/-- The tokens the walk actually consumes: everything before the first
empty token. -/
theorem getNode_eff (n : Node) (ts : List String) :
    getNode n ts = getNode n (eff ts) := by
  induction ts generalizing n with
  | nil => rfl
  | cons t rest ih =>
      by_cases ht : t = ""
      · simp [getNode, ht, eff]
      · simp [getNode, ht, eff, List.takeWhile, ih]

theorem withNode_eff (n : Node) (ts : List String) (f : Node → Node) :
    withNode n ts f = withNode n (eff ts) f := by
  induction ts generalizing n with
  | nil => rfl
  | cons t rest ih =>
      by_cases ht : t = ""
      · simp [withNode, ht, eff]
      · simp [withNode, ht, eff, List.takeWhile, ih]

theorem eff_no_empty (ts : List String) : ∀ t ∈ eff ts, t ≠ "" := by
  intro t ht
  have := List.mem_takeWhile_imp ht
  simpa using this

theorem getNode_append (a b : List String) (n : Node) (ha : ∀ t ∈ a, t ≠ "") :
    getNode n (a ++ b) = getNode (getNode n a) b := by
  induction a generalizing n with
  | nil => rfl
  | cons t rest ih =>
      have ht : t ≠ "" := ha t (by simp)
      simp only [List.cons_append, getNode, if_neg ht]
      exact ih _ (fun u hu => ha u (by simp [hu]))

/-- Outside the walked-to subtree the creating walk changes no cache and
no listener list, whatever action it applies at its target. -/
theorem fieldsAt_frame (f : Node → Node) (ts : List String) (n : Node)
    (q : List String) (hq : ∀ t ∈ q, t ≠ "") (hpre : ¬ eff ts <+: q) :
    infoAt (withNode n ts f) q = infoAt n q ∧
      lisAt (withNode n ts f) q = lisAt n q := by
  induction ts generalizing n q with
  | nil => exact absurd (List.nil_prefix) hpre
  | cons t rest ih =>
      by_cases ht : t = ""
      · refine absurd ?_ hpre
        simp [eff, List.takeWhile, ht]
      · simp only [withNode, if_neg ht]
        cases q with
        | nil =>
            constructor
            · simp [infoAt, getNode, Node.currentInfo]
            · simp [lisAt, getNode, Node.listeners]
        | cons u r =>
            have hu : u ≠ "" := hq u (by simp)
            by_cases hut : u = t
            · subst hut
              have hpre2 : ¬ eff rest <+: r := by
                intro hr
                obtain ⟨tl, htl⟩ := hr
                refine hpre ⟨tl, ?_⟩
                have he : eff (u :: rest) = u :: eff rest := by
                  simp [eff, List.takeWhile, ht]
                rw [he, List.cons_append, htl]
              have := ih ((alistFind n.children u).getD emptyNode) r
                (fun x hx => hq x (by simp [hx])) hpre2
              constructor
              · simpa [infoAt, getNode, if_neg hu, Node.children, alistFind_set]
                  using this.1
              · simpa [lisAt, getNode, if_neg hu, Node.children, alistFind_set]
                  using this.2
            · constructor
              · simp [infoAt, getNode, if_neg hu, Node.children, alistFind_set,
                  hut]
              · simp [lisAt, getNode, if_neg hu, Node.children, alistFind_set,
                  hut]

theorem removeFirst_append_self (l : List Nat) (h : Nat) (hl : h ∉ l) :
    removeFirst (l ++ [h]) h = l := by
  induction l with
  | nil => simp [removeFirst]
  | cons x rest ih =>
      have hx : x ≠ h := by
        intro he; exact hl (by simp [he])
      simp [removeFirst, hx, ih (fun hm => hl (by simp [hm]))]

/-! ## Claim theorems -/

/-- Claim C1 (code bug): `listenOnce("c", h)` does NOT result in exactly one
invocation of `h` when two `stream` calls to `"c"` follow in the same
synchronous turn.  Both live deliveries are scheduled while the wrapper is
still subscribed (it unsubscribes only when it first runs, which is
deferred) and the cached-replay check fires as well, so `h` runs three
times (payloads 2, 1, 2); a plain `subscribe` handler receives exactly the
same three invocations, not two.  This contradicts the code's own
interface documentation ("Only get news one time"). -/
theorem listenOnce_not_once_same_turn :
    (runAll (streamMsg (streamMsg (listenOnce (freshState 1) "c" 0)
        ⟨"c", .nat 1⟩) ⟨"c", .nat 2⟩)).log
      = [(0, .nat 2), (0, .nat 1), (0, .nat 2)]
    ∧ (runAll (streamMsg (streamMsg (subscribe (freshState 1) "c" 0)
        ⟨"c", .nat 1⟩) ⟨"c", .nat 2⟩)).log
      = [(0, .nat 2), (0, .nat 1), (0, .nat 2)] :=
  ⟨by decide, by decide⟩

/-- Claim C2, counterexample: `isStreaming` on a never-seen path is not
side-effect free — it resolves through the creating traversal, so querying
`"a"` on a fresh engine adds a child node under the root. -/
theorem isStreaming_creates_nodes :
    (isStreaming initState "a").2.root.children.length ≠
      initState.root.children.length := by decide

/-- Claim C2, amended: `isStreaming p` synchronously returns true exactly
when the node denoted by `p` has a cached streamed message; it schedules
nothing, invokes nothing, and modifies no listener list and no cache,
but its node resolution may create fresh empty nodes for unseen paths. -/
theorem isStreaming_reports_cache_and_preserves_it (s : RadioState)
    (p : String) (q : List String) :
    ((isStreaming s p).1 = true ↔ ∃ m, infoAt s.root (tokenize p) = some m)
    ∧ (isStreaming s p).2.log = s.log
    ∧ (isStreaming s p).2.tasks = s.tasks
    ∧ (isStreaming s p).2.kinds = s.kinds
    ∧ infoAt (isStreaming s p).2.root q = infoAt s.root q
    ∧ lisAt (isStreaming s p).2.root q = lisAt s.root q := by
  refine ⟨?_, rfl, rfl, rfl, ?_, ?_⟩
  · show ((getNode s.root (tokenize p)).currentInfo).isSome = true ↔ _
    simp [Option.isSome_iff_exists, infoAt]
  · exact infoAt_withNode (fun n => n) (fun m q2 => rfl) _ _ _
  · exact lisAt_withNode (fun n => n) (fun m q2 => rfl) _ _ _

/-- Claim C3: a handler subscribed to `"a/b"` after
`stream {channel := "a/b", payload := 42}` receives 42 from the deferred
cached-replay check — nothing is delivered synchronously during the
`subscribe` call, and draining the timer queue delivers exactly the cached
42. -/
theorem subscribe_replays_cached_stream (h : Nat) :
    (subscribe (streamMsg initState ⟨"a/b", .nat 42⟩) "a/b" h).log = []
    ∧ (runAll (subscribe (streamMsg initState ⟨"a/b", .nat 42⟩) "a/b" h)).log
        = [(h, .nat 42)] := by
  constructor
  · rfl
  · have hget1 : getNode (withNode emptyNode (tokenize "a/b")
        (setInfo ⟨"a/b", .nat 42⟩)) (tokenize "a/b")
        = Node.mk [] (some ⟨"a/b", .nat 42⟩) [] := by
      rw [getNode_withNode_self, getNode_emptyNode]
      rfl
    have hlis : (getNode emptyNode (tokenize "a/b")).listeners = [] := by
      rw [getNode_emptyNode]; rfl
    have hs2 : subscribe (streamMsg initState ⟨"a/b", .nat 42⟩) "a/b" h
        = { root := withNode (withNode emptyNode (tokenize "a/b")
              (setInfo ⟨"a/b", .nat 42⟩)) (tokenize "a/b") (addListener h),
            kinds := [], nextId := 0,
            tasks := [RTask.replay (tokenize "a/b") h], log := [] } := by
      simp [subscribe, subscribeT, streamMsg, initState, freshState, hlis]
    rw [hs2]
    have hget2 : getNode (withNode (withNode emptyNode (tokenize "a/b")
        (setInfo ⟨"a/b", .nat 42⟩)) (tokenize "a/b") (addListener h))
        (tokenize "a/b")
        = Node.mk [] (some ⟨"a/b", .nat 42⟩) [h] := by
      rw [getNode_withNode_self, hget1]
      simp [addListener, Node.listeners, Node.children, Node.currentInfo]
    simp [runAll, runQueue, runTask, hget2, invoke, findWrapper,
      Node.currentInfo]

/-- Claim C4, counterexample: a bare payload that is not a string is not
sugar for channel `"/"` — the `typeof message === 'string'` check falls
through, `message.channel` is `undefined`, and `.toLowerCase()` throws,
so the call fails instead of routing the payload to the root channel. -/
theorem bare_non_string_payload_throws :
    broadcast initState (.val (.nat 0)) = none
    ∧ stream initState (.val (.nat 0)) = none
    ∧ broadcast initState (.msg ⟨"/", .nat 0⟩) ≠
        broadcast initState (.val (.nat 0)) := by
  refine ⟨rfl, rfl, ?_⟩
  simp [broadcast, normalizeArg]

/-- Claim C4, amended: a bare STRING payload is sugar for
`{channel := "/", payload := value}` in both `broadcast` and `stream`;
bare non-string payloads are not supported (the call throws). -/
theorem bare_string_payload_routes_to_root (s : RadioState) (t : String) :
    broadcast s (.val (.str t)) = broadcast s (.msg ⟨"/", .str t⟩)
    ∧ stream s (.val (.str t)) = stream s (.msg ⟨"/", .str t⟩) :=
  ⟨rfl, rfl⟩

/-- Claim C8: paths that differ only by letter case resolve to the same
node, so subscribing under one spelling and broadcasting under the other
delivers the payload to the handler (exactly once here: the cached-replay
check finds no cache because broadcast leaves it empty). -/
theorem case_insensitive_delivery (p1 p2 : String) (h : Nat) (x : Value)
    (hc : p1.data.map Char.toLower = p2.data.map Char.toLower) :
    (runAll (broadcastMsg (subscribe initState p1 h) ⟨p2, x⟩)).log
      = [(h, x)] := by
  have htok : tokenize p2 = tokenize p1 := by
    simp [tokenize, hc]
  have hget1 : getNode (withNode emptyNode (tokenize p1) (addListener h))
      (tokenize p1) = Node.mk [] none [h] := by
    rw [getNode_withNode_self, getNode_emptyNode]
    simp [addListener, emptyNode, Node.listeners, Node.children,
      Node.currentInfo]
  have hs2 : broadcastMsg (subscribe initState p1 h) ⟨p2, x⟩
      = { root := withNode (withNode emptyNode (tokenize p1) (addListener h))
            (tokenize p1) (fun n => n),
          kinds := [], nextId := 0,
          tasks := [RTask.replay (tokenize p1) h, RTask.deliver h x],
          log := [] } := by
    simp [subscribe, subscribeT, broadcastMsg, initState, freshState, htok,
      hget1, Node.listeners]
  rw [hs2]
  have hget2 : getNode (withNode (withNode emptyNode (tokenize p1)
      (addListener h)) (tokenize p1) (fun n => n)) (tokenize p1)
      = Node.mk [] none [h] := by
    rw [getNode_withNode_self, hget1]
  simp [runAll, runQueue, runTask, hget2, invoke, findWrapper,
    Node.currentInfo]

/-- Claim C8, witness: concrete spellings `"A/B"` and `"a/b"`. -/
theorem case_insensitive_delivery_witness :
    "A/B".data.map Char.toLower = "a/b".data.map Char.toLower
    ∧ (runAll (broadcastMsg (subscribe initState "A/B" 0)
        ⟨"a/b", .nat 5⟩)).log = [(0, .nat 5)] :=
  ⟨by decide, case_insensitive_delivery "A/B" "a/b" 0 (.nat 5) (by decide)⟩

/-- Claim C10: subscribing `h` to `p` and then streaming `v` to `p` in the
same synchronous turn makes `h` run twice with `v` once the deferred
tasks run — once from the live delivery and once from the replay check,
which reads the cache at its own execution time. -/
theorem subscribe_then_stream_double_delivery (p : String) (h : Nat)
    (v : Value) :
    (runAll (streamMsg (subscribe initState p h) ⟨p, v⟩)).log
      = [(h, v), (h, v)] := by
  have hget1 : getNode (withNode emptyNode (tokenize p) (addListener h))
      (tokenize p) = Node.mk [] none [h] := by
    rw [getNode_withNode_self, getNode_emptyNode]
    simp [addListener, emptyNode, Node.listeners, Node.children,
      Node.currentInfo]
  have hs2 : streamMsg (subscribe initState p h) ⟨p, v⟩
      = { root := withNode (withNode emptyNode (tokenize p) (addListener h))
            (tokenize p) (setInfo ⟨p, v⟩),
          kinds := [], nextId := 0,
          tasks := [RTask.replay (tokenize p) h, RTask.deliver h v],
          log := [] } := by
    simp [subscribe, subscribeT, streamMsg, initState, freshState, hget1,
      Node.listeners]
  rw [hs2]
  have hget2 : getNode (withNode (withNode emptyNode (tokenize p)
      (addListener h)) (tokenize p) (setInfo ⟨p, v⟩)) (tokenize p)
      = Node.mk [] (some ⟨p, v⟩) [h] := by
    rw [getNode_withNode_self, hget1]; rfl
  simp [runAll, runQueue, runTask, hget2, invoke, findWrapper,
    Node.currentInfo]

/-- Claim C5: no handler runs synchronously inside `subscribe`,
`broadcast`, `stream` (or `listenOnce`): the invocation log is unchanged
when the call returns — every delivery, live or cached-replay, only
happens when the deferred timer queue runs. -/
theorem publish_and_subscribe_defer_all_deliveries (s : RadioState)
    (p : String) (h : Nat) (m : Msg) (a : MsgOrVal) :
    (subscribe s p h).log = s.log
    ∧ (broadcastMsg s m).log = s.log
    ∧ (streamMsg s m).log = s.log
    ∧ (listenOnce s p h).log = s.log
    ∧ (∀ s2, broadcast s a = some s2 → s2.log = s.log)
    ∧ (∀ s2, stream s a = some s2 → s2.log = s.log) := by
  refine ⟨rfl, rfl, rfl, rfl, ?_, ?_⟩
  · intro s2 h2
    obtain ⟨m2, hm2, rfl⟩ := Option.map_eq_some'.mp h2
    rfl
  · intro s2 h2
    obtain ⟨m2, hm2, rfl⟩ := Option.map_eq_some'.mp h2
    rfl

/-- Claim C5, witness: concrete calls on a fresh engine. -/
theorem publish_and_subscribe_defer_all_deliveries_witness :
    (subscribe initState "a" 0).log = initState.log
    ∧ (broadcastMsg initState ⟨"b", .nat 2⟩).log = initState.log
    ∧ (streamMsg initState ⟨"b", .nat 2⟩).log = initState.log
    ∧ (listenOnce initState "a" 0).log = initState.log
    ∧ (broadcastMsg initState ⟨"a", .nat 1⟩).log = initState.log
    ∧ (streamMsg initState ⟨"a", .nat 1⟩).log = initState.log := by
  have h := publish_and_subscribe_defer_all_deliveries initState "a" 0
    ⟨"b", .nat 2⟩ (.msg ⟨"a", .nat 1⟩)
  exact ⟨h.1, h.2.1, h.2.2.1, h.2.2.2.1, h.2.2.2.2.1 _ rfl,
    h.2.2.2.2.2 _ rfl⟩

/-- Claim C7: `broadcast` leaves the cached `currentInfo` of every node
unchanged, so it never turns `isStreaming` true; and the cache is set only
by `stream` — `subscribe`, `unsubscribe`, and `listenOnce` leave every
node's cache unchanged too. -/
theorem broadcast_never_touches_cache (s : RadioState) (m : Msg)
    (p p2 : String) (h : Nat) (q : List String) (a : MsgOrVal) :
    infoAt (broadcastMsg s m).root q = infoAt s.root q
    ∧ (isStreaming (broadcastMsg s m) p2).1 = (isStreaming s p2).1
    ∧ infoAt (subscribe s p h).root q = infoAt s.root q
    ∧ infoAt (unsubscribe s p h).root q = infoAt s.root q
    ∧ infoAt (listenOnce s p h).root q = infoAt s.root q
    ∧ (∀ s2, broadcast s a = some s2 → infoAt s2.root q = infoAt s.root q) := by
  have hb : ∀ m2 q2, infoAt (broadcastMsg s m2).root q2 = infoAt s.root q2 :=
    fun m2 q2 => infoAt_withNode (fun n => n) (fun _ _ => rfl) _ _ _
  refine ⟨hb m q, ?_, ?_, ?_, ?_, ?_⟩
  · show ((getNode (broadcastMsg s m).root (tokenize p2)).currentInfo).isSome
        = ((getNode s.root (tokenize p2)).currentInfo).isSome
    have h2 : (getNode (broadcastMsg s m).root (tokenize p2)).currentInfo
        = (getNode s.root (tokenize p2)).currentInfo := hb m (tokenize p2)
    rw [h2]
  · exact infoAt_withNode _ (infoAt_addListener h) _ _ _
  · exact infoAt_withNode _
      (fun m2 q2 => infoAt_congr
        (Node.mk m2.children m2.currentInfo (removeFirst m2.listeners h)) m2
        rfl rfl q2) _ _ _
  · show infoAt (withNode s.root (tokenize p) (addListener s.nextId)) q
        = infoAt s.root q
    exact infoAt_withNode _ (infoAt_addListener s.nextId) _ _ _
  · intro s2 h2
    obtain ⟨m2, hm2, rfl⟩ := Option.map_eq_some'.mp h2
    exact hb m2 q

/-- Claim C7, witness: concrete calls on a fresh engine. -/
theorem broadcast_never_touches_cache_witness :
    infoAt (broadcastMsg initState ⟨"x", .nat 1⟩).root ["x"]
        = infoAt initState.root ["x"]
    ∧ (isStreaming (broadcastMsg initState ⟨"x", .nat 1⟩) "x").1
        = (isStreaming initState "x").1
    ∧ infoAt (subscribe initState "x" 0).root ["x"]
        = infoAt initState.root ["x"]
    ∧ infoAt (unsubscribe initState "x" 0).root ["x"]
        = infoAt initState.root ["x"]
    ∧ infoAt (listenOnce initState "x" 0).root ["x"]
        = infoAt initState.root ["x"]
    ∧ infoAt (broadcastMsg initState ⟨"x", .nat 1⟩).root ["x"]
        = infoAt initState.root ["x"] := by
  have h := broadcast_never_touches_cache initState ⟨"x", .nat 1⟩ "x" "x" 0
    ["x"] (.msg ⟨"x", .nat 1⟩)
  exact ⟨h.1, h.2.1, h.2.2.1, h.2.2.2.1, h.2.2.2.2.1,
    h.2.2.2.2.2 _ rfl⟩

/-- Claim C6: `silence p` clears the cached streamed message on the node
of `p` and all its descendants (with `p = "/"`, the default, that is the
whole tree, so `isStreaming` turns false everywhere) while every node's
listener list is untouched and nodes outside the subtree keep their
cache; a stream issued after the silence still schedules deliveries to
exactly the previously subscribed listeners. -/
theorem silence_clears_subtree_and_keeps_listeners (s : RadioState)
    (p p2 : String) (q r : List String) (m : Msg) :
    lisAt (silence s p).root q = lisAt s.root q
    ∧ infoAt (silence s p).root (eff (tokenize p) ++ r) = none
    ∧ ((∀ t ∈ q, t ≠ "") → ¬ eff (tokenize p) <+: q →
        infoAt (silence s p).root q = infoAt s.root q)
    ∧ (isStreaming (silence s "/") p2).1 = false
    ∧ (streamMsg (silence s p) m).tasks
        = s.tasks ++ (lisAt s.root (tokenize m.channel)).map
            (fun h2 => RTask.deliver h2 m.payload) := by
  have hlis : ∀ q2, lisAt (silence s p).root q2 = lisAt s.root q2 :=
    fun q2 =>
      lisAt_withNode spreadClear (fun m2 q3 => lisAt_spreadClear q3 m2) _ _ _
  refine ⟨hlis q, ?_, ?_, ?_, ?_⟩
  · show infoAt (withNode s.root (tokenize p) spreadClear)
        (eff (tokenize p) ++ r) = none
    rw [withNode_eff]
    show (getNode (withNode s.root (eff (tokenize p)) spreadClear)
        (eff (tokenize p) ++ r)).currentInfo = none
    rw [getNode_append (eff (tokenize p)) r
        (withNode s.root (eff (tokenize p)) spreadClear) (eff_no_empty _),
      getNode_withNode_self]
    exact infoAt_spreadClear r _
  · intro hq hpre
    exact (fieldsAt_frame spreadClear (tokenize p) s.root q hq hpre).1
  · show ((getNode (silence s "/").root (tokenize p2)).currentInfo).isSome
        = false
    have hroot : (silence s "/").root = spreadClear s.root := rfl
    rw [hroot]
    have h2 : (getNode (spreadClear s.root) (tokenize p2)).currentInfo
        = none := infoAt_spreadClear _ _
    rw [h2]
    rfl
  · show (silence s p).tasks ++
        ((getNode (silence s p).root (tokenize m.channel)).listeners).map
          (fun h2 => RTask.deliver h2 m.payload)
        = s.tasks ++ (lisAt s.root (tokenize m.channel)).map
            (fun h2 => RTask.deliver h2 m.payload)
    have h3 : (getNode (silence s p).root (tokenize m.channel)).listeners
        = lisAt s.root (tokenize m.channel) := hlis (tokenize m.channel)
    rw [h3]
    rfl

/-- Claim C6, witness: concrete state, path and token lists. -/
theorem silence_clears_subtree_and_keeps_listeners_witness :
    lisAt (silence initState "a").root ["z"] = lisAt initState.root ["z"]
    ∧ infoAt (silence initState "a").root (eff (tokenize "a") ++ ["b"]) = none
    ∧ infoAt (silence initState "a").root ["z"] = infoAt initState.root ["z"]
    ∧ (isStreaming (silence initState "/") "b").1 = false
    ∧ (streamMsg (silence initState "a") ⟨"c", .nat 3⟩).tasks
        = initState.tasks ++ (lisAt initState.root (tokenize "c")).map
            (fun h2 => RTask.deliver h2 (Value.nat 3)) := by
  have h := silence_clears_subtree_and_keeps_listeners initState "a" "b"
    ["z"] ["b"] ⟨"c", .nat 3⟩
  exact ⟨h.1, h.2.1, h.2.2.1 (by decide) (by decide), h.2.2.2.1,
    h.2.2.2.2⟩

theorem addListener_of_not_mem (h : Nat) (n : Node) (hm : h ∉ n.listeners) :
    addListener h n = Node.mk n.children n.currentInfo (n.listeners ++ [h]) := by
  unfold addListener
  rw [if_neg hm]

theorem addListener_addListener (h : Nat) (n : Node) :
    addListener h (addListener h n) = addListener h n := by
  cases n with
  | mk cs info ls =>
      by_cases hm : h ∈ ls
      · have e1 : addListener h (Node.mk cs info ls) = Node.mk cs info ls := by
          simp [addListener, Node.listeners, hm]
        rw [e1, e1]
      · have e1 : addListener h (Node.mk cs info ls)
            = Node.mk cs info (ls ++ [h]) := by
          simp [addListener, Node.listeners, Node.children, Node.currentInfo,
            hm]
        rw [e1]
        simp [addListener, Node.listeners, Node.children, Node.currentInfo]

/-- Claim C9: subscribing the identical handler twice to the same path is
a no-op on the listener list the second time (the handler is registered
exactly once), subscribing twice then unsubscribing once leaves no
registration of the handler, and re-subscribing afterwards registers it
again. -/
theorem subscribe_idempotent_and_unsubscribe_removes (s : RadioState)
    (p : String) (h : Nat) :
    lisAt (subscribe (subscribe s p h) p h).root (tokenize p)
        = lisAt (subscribe s p h).root (tokenize p)
    ∧ (h ∉ lisAt s.root (tokenize p) →
        lisAt (subscribe (subscribe s p h) p h).root (tokenize p)
          = lisAt s.root (tokenize p) ++ [h])
    ∧ (h ∉ lisAt s.root (tokenize p) →
        List.count h
          (lisAt (subscribe (subscribe s p h) p h).root (tokenize p)) = 1)
    ∧ (h ∉ lisAt s.root (tokenize p) →
        h ∉ lisAt (unsubscribe (subscribe (subscribe s p h) p h) p h).root
          (tokenize p))
    ∧ (h ∉ lisAt s.root (tokenize p) →
        h ∈ lisAt (subscribe
          (unsubscribe (subscribe (subscribe s p h) p h) p h) p h).root
          (tokenize p)) := by
  have hg1 : getNode (subscribe s p h).root (tokenize p)
      = addListener h (getNode s.root (tokenize p)) :=
    getNode_withNode_self _ _ _
  have hg2 : getNode (subscribe (subscribe s p h) p h).root (tokenize p)
      = addListener h (getNode s.root (tokenize p)) := by
    show getNode (withNode (subscribe s p h).root (tokenize p)
        (addListener h)) (tokenize p) = _
    rw [getNode_withNode_self, hg1, addListener_addListener]
  have hadd : h ∉ lisAt s.root (tokenize p) →
      addListener h (getNode s.root (tokenize p))
        = Node.mk (getNode s.root (tokenize p)).children
            (getNode s.root (tokenize p)).currentInfo
            ((getNode s.root (tokenize p)).listeners ++ [h]) := by
    intro hm
    exact addListener_of_not_mem h _ hm
  have hg3 : h ∉ lisAt s.root (tokenize p) →
      getNode (unsubscribe (subscribe (subscribe s p h) p h) p h).root
          (tokenize p)
        = Node.mk (getNode s.root (tokenize p)).children
            (getNode s.root (tokenize p)).currentInfo
            (getNode s.root (tokenize p)).listeners := by
    intro hm
    have hm2 : h ∉ (getNode s.root (tokenize p)).listeners := hm
    show getNode (withNode (subscribe (subscribe s p h) p h).root (tokenize p)
        (fun n => Node.mk n.children n.currentInfo
          (removeFirst n.listeners h))) (tokenize p) = _
    rw [getNode_withNode_self, hg2, hadd hm]
    show Node.mk _ _ (removeFirst ((getNode s.root (tokenize p)).listeners
        ++ [h]) h) = _
    rw [removeFirst_append_self _ _ hm2]
    rfl
  refine ⟨?_, ?_, ?_, ?_, ?_⟩
  · show (getNode (subscribe (subscribe s p h) p h).root
        (tokenize p)).listeners
        = (getNode (subscribe s p h).root (tokenize p)).listeners
    rw [hg1, hg2]
  · intro hm
    show (getNode (subscribe (subscribe s p h) p h).root
        (tokenize p)).listeners = _
    rw [hg2, hadd hm]
    rfl
  · intro hm
    have hm2 : h ∉ (getNode s.root (tokenize p)).listeners := hm
    show List.count h
        (getNode (subscribe (subscribe s p h) p h).root
          (tokenize p)).listeners = 1
    rw [hg2, hadd hm]
    show List.count h ((getNode s.root (tokenize p)).listeners ++ [h]) = 1
    rw [List.count_append, List.count_eq_zero_of_not_mem hm2]
    simp
  · intro hm
    show h ∉ (getNode (unsubscribe (subscribe (subscribe s p h) p h) p h).root
        (tokenize p)).listeners
    rw [hg3 hm]
    exact hm
  · intro hm
    have hm2 : h ∉ (getNode s.root (tokenize p)).listeners := hm
    show h ∈ (getNode (subscribe
        (unsubscribe (subscribe (subscribe s p h) p h) p h) p h).root
        (tokenize p)).listeners
    rw [show getNode (subscribe
        (unsubscribe (subscribe (subscribe s p h) p h) p h) p h).root
        (tokenize p)
      = addListener h (getNode
          (unsubscribe (subscribe (subscribe s p h) p h) p h).root
          (tokenize p)) from getNode_withNode_self _ _ _, hg3 hm,
      addListener_of_not_mem h
        (Node.mk (getNode s.root (tokenize p)).children
          (getNode s.root (tokenize p)).currentInfo
          (getNode s.root (tokenize p)).listeners) hm2]
    show h ∈ (getNode s.root (tokenize p)).listeners ++ [h]
    exact List.mem_append_right _ (List.mem_singleton.mpr rfl)

/-- Claim C9, witness: fresh engine, path `"a"`, handler `0`. -/
theorem subscribe_idempotent_and_unsubscribe_removes_witness :
    (0 ∉ lisAt initState.root (tokenize "a"))
    ∧ lisAt (subscribe (subscribe initState "a" 0) "a" 0).root (tokenize "a")
        = lisAt (subscribe initState "a" 0).root (tokenize "a")
    ∧ lisAt (subscribe (subscribe initState "a" 0) "a" 0).root (tokenize "a")
        = lisAt initState.root (tokenize "a") ++ [0]
    ∧ List.count 0
        (lisAt (subscribe (subscribe initState "a" 0) "a" 0).root
          (tokenize "a")) = 1
    ∧ 0 ∉ lisAt (unsubscribe (subscribe (subscribe initState "a" 0) "a" 0)
        "a" 0).root (tokenize "a")
    ∧ 0 ∈ lisAt (subscribe (unsubscribe
        (subscribe (subscribe initState "a" 0) "a" 0) "a" 0) "a" 0).root
        (tokenize "a") := by
  have h := subscribe_idempotent_and_unsubscribe_removes initState "a" 0
  have hm : (0 : Nat) ∉ lisAt initState.root (tokenize "a") := by decide
  exact ⟨hm, h.1, h.2.1 hm, h.2.2.1 hm, h.2.2.2.1 hm, h.2.2.2.2 hm⟩
